import Mathlib

/-!
Verification of the `umdloop/tools` fsm-gen runtime core: the circular
event FIFO shared between interrupt and main-loop context
(`src/fsm-gen/fsm_fifo.cpp` and the host-test copy
`src/fsm-gen/tests/overlap/code/Src/fsm_fifo.cpp`), the timer service
(`src/fsm-gen/demo/LiveDemo/Src/user_timers.cpp`) and the generated
two-state oscillator machine (`src/fsm-gen/demo/LiveDemo/Src/FSM2.cpp`).

The FIFO capacity `FIFO_SIZE` is a compile-time constant declared in
`fsm_fifo.hpp`, which only the spec describes ("capacity = N, a
compile-time constant"); the development is therefore parametric in the
capacity `N`.  Events (`FSM_Event`) are opaque enumeration identifiers
and are modelled as `Nat`.
-/

set_option maxHeartbeats 1000000

namespace FsmTools

/-- The `Event_FIFO` record from `fsm_fifo.hpp` as the spec describes it
and as both `fsm_fifo.cpp` files use it: a fixed array of slots, a
`head` index (next slot to read) and a `tail` index (next slot to
write).  TheC++ global `Event_FIFO fifo;` is zero-initialized. -/
structure Event_FIFO where
  buffer : List Nat
  head : Nat
  tail : Nat
deriving DecidableEq, Repr

/-- The zero-initialized global `Event_FIFO fifo;` with capacity `N`. -/
def initFifo (N : Nat) : Event_FIFO :=
  { buffer := List.replicate N 0, head := 0, tail := 0 }

/-- `write_event` from the host-test file
`src/fsm-gen/tests/overlap/code/Src/fsm_fifo.cpp` (no interrupt
guarding): `next = tail + 1`; if `next == head` or
(`next == FIFO_SIZE` and `head == 0`) the buffer is full and the event
is dropped; otherwise `buffer[tail] = event` and `tail` advances with
wraparound. -/
def write_event_host (N : Nat) (f : Event_FIFO) (event : Nat) : Event_FIFO :=
  let next := f.tail + 1
  if next = f.head ∨ (next = N ∧ f.head = 0) then
    f
  else
    { f with buffer := f.buffer.set f.tail event,
             tail := if f.tail = N - 1 then 0 else next }

/-- Machine state for the interrupt-guarded variant: the FIFO plus the
processor's interrupt-enable flag toggled by `__disable_irq` /
`__enable_irq`. -/
structure IrqState where
  irqEnabled : Bool
  fifo : Event_FIFO
deriving DecidableEq, Repr

/-- `__disable_irq()`: clears the interrupt-enable flag. -/
def disable_irq (s : IrqState) : IrqState := { s with irqEnabled := false }

/-- `__enable_irq()`: sets the interrupt-enable flag. -/
def enable_irq (s : IrqState) : IrqState := { s with irqEnabled := true }

/-- `write_event` from `src/fsm-gen/fsm_fifo.cpp`: disables interrupts,
performs the same guarded insertion as the host variant, then re-enables
interrupts. -/
def write_event_irq (N : Nat) (s : IrqState) (event : Nat) : IrqState :=
  let s1 := disable_irq s
  let f := s1.fifo
  let next := f.tail + 1
  let f2 :=
    if next = f.head ∨ (next = N ∧ f.head = 0) then
      f
    else
      { f with buffer := f.buffer.set f.tail event,
               tail := if f.tail = N - 1 then 0 else next }
  enable_irq { s1 with fifo := f2 }

/-- The effect of `write_event` (`src/fsm-gen/fsm_fifo.cpp`) on the
FIFO itself: the interrupt intrinsics touch only the interrupt-enable
flag, never `buffer`/`head`/`tail`. -/
def write_event (N : Nat) (f : Event_FIFO) (event : Nat) : Event_FIFO :=
  (write_event_irq N { irqEnabled := true, fifo := f } event).fifo

/-- `read_event` from `src/fsm-gen/fsm_fifo.cpp`.  The C function takes
`FSM_Event *event` as an out-parameter and returns an `int`; here
`event` is the value currently stored at the out-location and the result
triple is (return value, out-location after the call, FIFO after the
call).  Empty (`head == tail`) returns 0 leaving everything untouched;
otherwise the slot at `head` is copied out, `head` advances with
wraparound, and 1 is returned. -/
def read_event (N : Nat) (f : Event_FIFO) (event : Nat) : Nat × Nat × Event_FIFO :=
  if f.head = f.tail then
    (0, event, f)
  else
    (1, f.buffer.getD f.head 0,
     { f with head := if f.head = N - 1 then 0 else f.head + 1 })

/-- `read_event` from the host-test file
`src/fsm-gen/tests/overlap/code/Src/fsm_fifo.cpp` (textually the same
body as the interrupt build's `read_event`). -/
def read_event_host (N : Nat) (f : Event_FIFO) (event : Nat) : Nat × Nat × Event_FIFO :=
  if f.head = f.tail then
    (0, event, f)
  else
    (1, f.buffer.getD f.head 0,
     { f with head := if f.head = N - 1 then 0 else f.head + 1 })

/-- One queue operation of a client: an enqueue (`write_event e`) or a
dequeue (`read_event`). -/
inductive FifoOp where
  | write (e : Nat)
  | read
deriving DecidableEq, Repr

/-- Execute one operation against the FIFO (the dequeue's out-location
and return value are irrelevant to the queue state and are dropped). -/
def fifoStep (N : Nat) (f : Event_FIFO) : FifoOp → Event_FIFO
  | .write e => write_event N f e
  | .read => (read_event N f 0).2.2

/-- Execute a sequence of operations starting from the zero-initialized
queue. -/
def run (N : Nat) (ops : List FifoOp) : Event_FIFO :=
  ops.foldl (fifoStep N) (initFifo N)

/-- Number of live (written, not yet read) entries held by the queue:
the distance from `head` forward to `tail` around the ring. -/
def count (N : Nat) (f : Event_FIFO) : Nat :=
  if f.head ≤ f.tail then f.tail - f.head else f.tail + N - f.head

/-- The live entries of the queue, oldest first: the slots from `head`
(inclusive) to `tail` (exclusive), walking the ring. -/
def contents (N : Nat) (f : Event_FIFO) : List Nat :=
  (List.range (count N f)).map (fun i => f.buffer.getD ((f.head + i) % N) 0)

/-- Structural well-formedness of a FIFO with capacity `N`: the slot
array has exactly `N` slots and both indices are in range. -/
def Inv (N : Nat) (f : Event_FIFO) : Prop :=
  f.buffer.length = N ∧ f.head < N ∧ f.tail < N

/-- `k` successive `read_event` calls (each into a fresh out-location
holding 0), collecting the (return value, out-location) pairs. -/
def readN (N : Nat) (f : Event_FIFO) : Nat → List (Nat × Nat) × Event_FIFO
  | 0 => ([], f)
  | k + 1 =>
    let r := read_event N f 0
    let rest := readN N r.2.2 k
    ((r.1, r.2.1) :: rest.1, rest.2)

/- ### Helper lemmas about the FIFO -/

theorem write_event_eq_host (N : Nat) (f : Event_FIFO) (e : Nat) :
    write_event N f e = write_event_host N f e := rfl

theorem write_event_fn_eq (N : Nat) : write_event N = write_event_host N := rfl

theorem read_event_host_eq (N : Nat) (f : Event_FIFO) (ev : Nat) :
    read_event_host N f ev = read_event N f ev := rfl

theorem getD_set_ne (l : List Nat) {i j : Nat} (a d : Nat) (h : i ≠ j) :
    (l.set i a).getD j d = l.getD j d := by
  simp [List.getD_eq_getElem?_getD, List.getElem?_set_ne h]

theorem getD_set_self (l : List Nat) {i : Nat} (a d : Nat) (h : i < l.length) :
    (l.set i a).getD i d = a := by
  simp [List.getD_eq_getElem?_getD, List.getElem?_set_eq_of_lt a h]

theorem inv_initFifo {N : Nat} (hN : 0 < N) : Inv N (initFifo N) := by
  refine ⟨?_, hN, hN⟩
  simp [initFifo]

theorem count_initFifo (N : Nat) : count N (initFifo N) = 0 := by
  simp [count, initFifo]

theorem contents_initFifo (N : Nat) : contents N (initFifo N) = [] := by
  simp [contents, count_initFifo]

theorem length_contents (N : Nat) (f : Event_FIFO) :
    (contents N f).length = count N f := by
  simp [contents]

theorem count_lt {N : Nat} {f : Event_FIFO} (hf : Inv N f) : count N f < N := by
  obtain ⟨hb, hh, ht⟩ := hf
  simp only [count]
  split_ifs <;> omega

theorem count_eq_zero_iff {N : Nat} {f : Event_FIFO} (hf : Inv N f) :
    count N f = 0 ↔ f.head = f.tail := by
  obtain ⟨hb, hh, ht⟩ := hf
  simp only [count]
  split_ifs <;> omega

theorem contents_eq_nil_iff {N : Nat} {f : Event_FIFO} (hf : Inv N f) :
    contents N f = [] ↔ f.head = f.tail := by
  rw [← count_eq_zero_iff hf, ← length_contents, List.length_eq_zero]

theorem full_guard_iff {N : Nat} {f : Event_FIFO} (hf : Inv N f) :
    (f.tail + 1 = f.head ∨ (f.tail + 1 = N ∧ f.head = 0)) ↔ count N f = N - 1 := by
  obtain ⟨hb, hh, ht⟩ := hf
  simp only [count]
  split_ifs <;> omega

theorem nextIdx_eq_mod {N i : Nat} (hi : i < N) :
    (if i = N - 1 then 0 else i + 1) = (i + 1) % N := by
  split_ifs with h
  · rw [show i + 1 = N by omega, Nat.mod_self]
  · rw [Nat.mod_eq_of_lt (by omega)]

theorem succ_mod_eq_head_iff {N : Nat} {f : Event_FIFO} (hf : Inv N f) :
    (f.tail + 1) % N = f.head ↔
      (f.tail + 1 = f.head ∨ (f.tail + 1 = N ∧ f.head = 0)) := by
  obtain ⟨hb, hh, ht⟩ := hf
  rw [← nextIdx_eq_mod ht]
  split_ifs with h <;> omega

theorem head_add_count_mod {N : Nat} {f : Event_FIFO} (hf : Inv N f) :
    (f.head + count N f) % N = f.tail := by
  obtain ⟨hb, hh, ht⟩ := hf
  simp only [count]
  split_ifs with h
  · rw [show f.head + (f.tail - f.head) = f.tail by omega, Nat.mod_eq_of_lt ht]
  · rw [show f.head + (f.tail + N - f.head) = f.tail + N by omega,
      Nat.add_mod_right, Nat.mod_eq_of_lt ht]

theorem head_add_mod_ne_tail {N : Nat} {f : Event_FIFO} (hf : Inv N f)
    {i : Nat} (hi : i < count N f) : (f.head + i) % N ≠ f.tail := by
  obtain ⟨hb, hh, ht⟩ := hf
  simp only [count] at hi
  by_cases hle : f.head ≤ f.tail
  · rw [if_pos hle] at hi
    rw [Nat.mod_eq_of_lt (by omega)]
    omega
  · rw [if_neg hle] at hi
    by_cases h2 : f.head + i < N
    · rw [Nat.mod_eq_of_lt h2]
      omega
    · rw [Nat.mod_eq_sub_mod (by omega), Nat.mod_eq_of_lt (by omega)]
      omega

/-- When the queue is not full, `write_event` stores the event at `tail`
and advances `tail`. -/
theorem write_not_full_eq {N : Nat} {f : Event_FIFO} (hf : Inv N f)
    (hlt : count N f < N - 1) (e : Nat) :
    write_event_host N f e =
      { buffer := f.buffer.set f.tail e, head := f.head,
        tail := if f.tail = N - 1 then 0 else f.tail + 1 } := by
  have hg : ¬(f.tail + 1 = f.head ∨ (f.tail + 1 = N ∧ f.head = 0)) := by
    intro h
    have := (full_guard_iff hf).mp h
    omega
  simp only [write_event_host, if_neg hg]

theorem count_write {N : Nat} {f : Event_FIFO} (hf : Inv N f)
    (hlt : count N f < N - 1) (e : Nat) :
    count N (write_event_host N f e) = count N f + 1 := by
  obtain ⟨hb, hh, ht⟩ := hf
  rw [write_not_full_eq ⟨hb, hh, ht⟩ hlt e]
  simp only [count] at hlt ⊢
  split_ifs at hlt ⊢ <;> omega

theorem inv_write_host {N : Nat} {f : Event_FIFO} (hf : Inv N f) (e : Nat) :
    Inv N (write_event_host N f e) := by
  obtain ⟨hb, hh, ht⟩ := hf
  simp only [write_event_host]
  split_ifs with h1 h2
  · exact ⟨hb, hh, ht⟩
  · exact ⟨by simpa using hb, hh, by dsimp only; omega⟩
  · exact ⟨by simpa using hb, hh, by dsimp only; omega⟩

theorem contents_write {N : Nat} {f : Event_FIFO} (hf : Inv N f)
    (hlt : count N f < N - 1) (e : Nat) :
    contents N (write_event_host N f e) = contents N f ++ [e] := by
  have hcw := count_write hf hlt e
  obtain ⟨hb, hh, ht⟩ := hf
  rw [write_not_full_eq ⟨hb, hh, ht⟩ hlt e] at hcw ⊢
  simp only [contents, hcw]
  rw [List.range_succ, List.map_append]
  congr 1
  · apply List.map_congr_left
    intro i hi
    rw [List.mem_range] at hi
    exact getD_set_ne f.buffer e 0 fun h =>
      head_add_mod_ne_tail ⟨hb, hh, ht⟩ hi h.symm
  · simp only [List.map_cons, List.map_nil]
    rw [head_add_count_mod ⟨hb, hh, ht⟩, getD_set_self f.buffer e 0 (by omega)]

theorem read_empty_eq {N : Nat} {f : Event_FIFO} (h : f.head = f.tail) (ev : Nat) :
    read_event N f ev = (0, ev, f) := by
  simp [read_event, h]

theorem read_nonempty_eq {N : Nat} {f : Event_FIFO} (h : f.head ≠ f.tail) (ev : Nat) :
    read_event N f ev =
      (1, f.buffer.getD f.head 0,
       { f with head := if f.head = N - 1 then 0 else f.head + 1 }) := by
  simp [read_event, h]

theorem inv_read {N : Nat} {f : Event_FIFO} (hf : Inv N f) (ev : Nat) :
    Inv N ((read_event N f ev).2.2) := by
  obtain ⟨hb, hh, ht⟩ := hf
  simp only [read_event]
  split_ifs with h1 h2 <;> dsimp only
  · exact ⟨hb, hh, ht⟩
  · exact ⟨hb, by dsimp only; omega, ht⟩
  · exact ⟨hb, by dsimp only; omega, ht⟩

theorem count_read {N : Nat} {f : Event_FIFO} (hf : Inv N f)
    (h : f.head ≠ f.tail) (ev : Nat) :
    count N ((read_event N f ev).2.2) = count N f - 1 := by
  obtain ⟨hb, hh, ht⟩ := hf
  rw [read_nonempty_eq h ev]
  simp only [count]
  split_ifs <;> omega

theorem contents_read {N : Nat} {f : Event_FIFO} (hf : Inv N f)
    (h : f.head ≠ f.tail) (ev : Nat) :
    contents N f =
      f.buffer.getD f.head 0 :: contents N ((read_event N f ev).2.2) := by
  have hc0 : count N f ≠ 0 := fun hc => h ((count_eq_zero_iff hf).mp hc)
  obtain ⟨c, hcs⟩ : ∃ c, count N f = c + 1 := ⟨count N f - 1, by omega⟩
  have hcr2 : count N ((read_event N f ev).2.2) = c := by
    rw [count_read hf h ev, hcs]
    omega
  obtain ⟨hb, hh, ht⟩ := hf
  have hidx : ∀ i : Nat,
      ((if f.head = N - 1 then 0 else f.head + 1) + i) % N =
        (f.head + (i + 1)) % N := by
    intro i
    rw [nextIdx_eq_mod hh, Nat.mod_add_mod]
    congr 1
    omega
  rw [read_nonempty_eq h ev] at hcr2 ⊢
  simp only [contents, hcs, hcr2]
  rw [List.range_succ_eq_map]
  simp only [List.map_cons, List.map_map, Nat.add_zero, Nat.mod_eq_of_lt hh]
  congr 1
  apply List.map_congr_left
  intro i hi
  simp only [Function.comp]
  rw [hidx i]

/-- Structural well-formedness is preserved by every operation
sequence. -/
theorem inv_foldl {N : Nat} (ops : List FifoOp) (f : Event_FIFO) (hf : Inv N f) :
    Inv N (ops.foldl (fifoStep N) f) := by
  induction ops generalizing f with
  | nil => exact hf
  | cons op ops ih =>
    rw [List.foldl_cons]
    apply ih
    cases op with
    | write e =>
      rw [fifoStep, write_event_eq_host]
      exact inv_write_host hf e
    | read => exact inv_read hf 0

theorem inv_run {N : Nat} (hN : 0 < N) (ops : List FifoOp) :
    Inv N (run N ops) :=
  inv_foldl ops (initFifo N) (inv_initFifo hN)

theorem inv_foldl_write {N : Nat} (es : List Nat) (f : Event_FIFO) (hf : Inv N f) :
    Inv N (es.foldl (write_event_host N) f) := by
  induction es generalizing f with
  | nil => exact hf
  | cons e es ih =>
    rw [List.foldl_cons]
    exact ih _ (inv_write_host hf e)

/-- Enqueuing a list of events that fits in the remaining capacity
appends it to the live contents. -/
theorem contents_foldl_write {N : Nat} (es : List Nat) (f : Event_FIFO)
    (hf : Inv N f) (hlen : count N f + es.length + 1 ≤ N) :
    contents N (es.foldl (write_event_host N) f) = contents N f ++ es := by
  induction es generalizing f with
  | nil => simp
  | cons e es ih =>
    have hlt : count N f < N - 1 := by
      simp only [List.length_cons] at hlen
      omega
    rw [List.foldl_cons,
      ih (write_event_host N f e) (inv_write_host hf e)
        (by rw [count_write hf hlt e]; simp only [List.length_cons] at hlen; omega),
      contents_write hf hlt e]
    simp

/-- Draining a queue holding `k` live events yields `k` successes
carrying exactly the live contents in order. -/
theorem readN_drain {N : Nat} (k : Nat) (f : Event_FIFO) (hf : Inv N f)
    (hlen : (contents N f).length = k) :
    (readN N f k).1 = (contents N f).map (fun e => (1, e)) := by
  induction k generalizing f with
  | zero =>
    rw [List.length_eq_zero.mp hlen]
    rfl
  | succ k ih =>
    have hcnt : count N f = k + 1 := by rw [← length_contents]; exact hlen
    have hne : f.head ≠ f.tail := by
      intro h
      have h0 := (count_eq_zero_iff hf).mpr h
      omega
    have hinv2 := inv_read hf 0
    have hlen2 : (contents N ((read_event N f 0).2.2)).length = k := by
      rw [length_contents, count_read hf hne 0, hcnt]
      omega
    have hcons := contents_read hf hne 0
    simp only [readN]
    rw [hcons, List.map_cons, ih _ hinv2 hlen2]
    simp only [read_nonempty_eq hne 0]

/- ### Timer service (`src/fsm-gen/demo/LiveDemo/Src/user_timers.cpp`) -/

/-- The `Timer` enumeration of channels used by `user_timers.cpp`
(`Events.hpp` is not in the sources; the spec says channels are "a
fixed, small set of named timer channels" and the switch statements
enumerate exactly these constants). -/
inductive Timer where
  | TIMER_1
  | TIMER_2
  | TIMER_3
  | NUM_TIMERS
deriving DecidableEq, Repr

/-- Modelled from the spec: the observable state of one hardware timer
resource (`TIM_HandleTypeDef` plus the registers its `Instance` points
at).  The HAL driver itself is an external collaborator ("the hardware
timer driver ... beyond the minimal contract it must satisfy"); the
fields are the period register programmed by `HAL_TIM_Base_Init`, the
pending update-interrupt flag, the running flag, and the counter
register. -/
structure HalTim where
  period : Int
  itPending : Bool
  running : Bool
  counter : Int
deriving DecidableEq, Repr

/-- Modelled from the spec: `HAL_TIM_Base_Init(&htim)` programs the
hardware period register from `htim.Init.Period`.  The C code sets
`htim.Init.Period = 10*ms` on a by-value copy of the handle just before
this call; the hardware effect goes through the shared `Instance`
pointer, so the programmed period is the `Init.Period` of that copy. -/
def HAL_TIM_Base_Init (t : HalTim) (initPeriod : Int) : HalTim :=
  { t with period := initPeriod }

/-- Modelled from the spec: `__HAL_TIM_CLEAR_IT(&htim, TIM_IT_UPDATE)`
clears any pending elapsed (update-interrupt) flag. -/
def HAL_TIM_CLEAR_IT (t : HalTim) : HalTim :=
  { t with itPending := false }

/-- Modelled from the spec: `HAL_TIM_Base_Start_IT(&htim)` starts the
countdown with the update interrupt enabled. -/
def HAL_TIM_Base_Start_IT (t : HalTim) : HalTim :=
  { t with running := true }

/-- Modelled from the spec: `HAL_TIM_Base_Stop_IT(&htim)` halts the
countdown. -/
def HAL_TIM_Base_Stop_IT (t : HalTim) : HalTim :=
  { t with running := false }

/-- Modelled from the spec: `__HAL_TIM_SET_COUNTER(&htim, v)` writes the
counter register. -/
def HAL_TIM_SET_COUNTER (t : HalTim) (v : Int) : HalTim :=
  { t with counter := v }

/-- The three timer handles `htim1`, `htim2`, `htim3` that
`user_timers.cpp` declares `extern` (there is no hardware resource for
the `NUM_TIMERS` count value). -/
structure TimerEnv where
  htim1 : HalTim
  htim2 : HalTim
  htim3 : HalTim
deriving DecidableEq, Repr

/-- The handle bound to a valid channel (`TIMER_1 ↦ htim1`,
`TIMER_2 ↦ htim2`, `TIMER_3 ↦ htim3`, as in the switch statements of
`start_timer`/`stop_timer`; `NUM_TIMERS` is mapped arbitrarily and is
only ever used under a `t ≠ NUM_TIMERS` hypothesis). -/
def getTim (env : TimerEnv) : Timer → HalTim
  | .TIMER_1 => env.htim1
  | .TIMER_2 => env.htim2
  | .TIMER_3 => env.htim3
  | .NUM_TIMERS => env.htim1

/-- `start_hal_timer(htim, ms)` from `user_timers.cpp`:
`htim.Init.Period = 10*ms; HAL_TIM_Base_Init(&htim);
__HAL_TIM_CLEAR_IT(&htim, TIM_IT_UPDATE); HAL_TIM_Base_Start_IT(&htim);`. -/
def start_hal_timer (t : HalTim) (ms : Int) : HalTim :=
  HAL_TIM_Base_Start_IT (HAL_TIM_CLEAR_IT (HAL_TIM_Base_Init t (10 * ms)))

/-- `stop_hal_timer(htim)` from `user_timers.cpp`:
`HAL_TIM_Base_Stop_IT(&htim); __HAL_TIM_SET_COUNTER(&htim, 0);`. -/
def stop_hal_timer (t : HalTim) : HalTim :=
  HAL_TIM_SET_COUNTER (HAL_TIM_Base_Stop_IT t) 0

/-- `start_timer(timer, ms)` from `user_timers.cpp`: dispatches on the
channel; `NUM_TIMERS` just returns. -/
def start_timer (env : TimerEnv) (timer : Timer) (ms : Int) : TimerEnv :=
  match timer with
  | .TIMER_1 => { env with htim1 := start_hal_timer env.htim1 ms }
  | .TIMER_2 => { env with htim2 := start_hal_timer env.htim2 ms }
  | .TIMER_3 => { env with htim3 := start_hal_timer env.htim3 ms }
  | .NUM_TIMERS => env

/-- `stop_timer(timer)` from `user_timers.cpp`: dispatches on the
channel; `NUM_TIMERS` just returns. -/
def stop_timer (env : TimerEnv) (timer : Timer) : TimerEnv :=
  match timer with
  | .TIMER_1 => { env with htim1 := stop_hal_timer env.htim1 }
  | .TIMER_2 => { env with htim2 := stop_hal_timer env.htim2 }
  | .TIMER_3 => { env with htim3 := stop_hal_timer env.htim3 }
  | .NUM_TIMERS => env

/- ### Generated oscillator machine
(`src/fsm-gen/demo/LiveDemo/Src/FSM2.cpp`) -/

/-- The two generated states of `FSM2`: `FSM2_S03` ("(ENTRY)Three") and
`FSM2_S04` ("Four"). -/
inductive FSM2State where
  | S03
  | S04
deriving DecidableEq, Repr

/-- The event types dispatched to the machines (one per timer channel,
as raised by `HAL_TIM_PeriodElapsedCallback`). -/
inductive FSMEventTy where
  | TIMER_1_EVENT
  | TIMER_2_EVENT
  | TIMER_3_EVENT
deriving DecidableEq, Repr

/-- Modelled from the spec: a machine instance "owns exactly one active
State at a time"; the observable configuration is the active state
together with the timer channels the states drive.  (The display hooks
`state_S03()`/`state_S04()` called by the entry actions are external
demo code with no effect on this state.) -/
structure FSM2Machine where
  active : FSM2State
  timers : TimerEnv
deriving DecidableEq, Repr

/-- The entry actions of the generated states: both `FSM2_S03::entry`
and `FSM2_S04::entry` call `start_timer(TIMER_2, 500)`. -/
def FSM2_entry (s : FSM2State) (env : TimerEnv) : TimerEnv :=
  match s with
  | .S03 => start_timer env .TIMER_2 500
  | .S04 => start_timer env .TIMER_2 500

/-- Modelled from the spec: `transit<NextState>()` — "(1) the engine
marks `next_state` as the new active state; (2) the new state's entry
action runs".  The engine itself (`FSM2.hpp`) is not among the sources;
this is its contract from §4.3 of the spec. -/
def fsm2_transit (m : FSM2Machine) (s : FSM2State) : FSM2Machine :=
  { active := s, timers := FSM2_entry s m.timers }

/-- Event dispatch to the active state's reaction.  `FSM2_S03` and
`FSM2_S04` each declare `react(TIMER_2_EVENT const&)` which stops
`TIMER_2` and transits to the other state; per the spec, an event type
the active state declares no reaction for is silently ignored. -/
def FSM2_react (m : FSM2Machine) (ev : FSMEventTy) : FSM2Machine :=
  match m.active, ev with
  | .S03, .TIMER_2_EVENT =>
    fsm2_transit { m with timers := stop_timer m.timers .TIMER_2 } .S04
  | .S04, .TIMER_2_EVENT =>
    fsm2_transit { m with timers := stop_timer m.timers .TIMER_2 } .S03
  | _, _ => m

/-- `FSM_INITIAL_STATE(FSM2, FSM2_S03)` plus machine start: the active
state is `FSM2_S03` and its entry action has run. -/
def FSM2_start (env : TimerEnv) : FSM2Machine :=
  { active := .S03, timers := FSM2_entry .S03 env }

/-- One elapse of `TIMER_2` delivered to the machine. -/
def fsm2Step (m : FSM2Machine) : FSM2Machine :=
  FSM2_react m .TIMER_2_EVENT

/- ### Claims -/

/-- Claim C1: for every sequence of enqueue/dequeue operations from the
initial all-empty queue, the queue is empty iff `head == tail`, it is
full (holds `FIFO_SIZE - 1` live entries) iff advancing `tail` by one
with wraparound would equal `head`, it never holds more than
`FIFO_SIZE - 1` live entries, and the `head`/`tail` indices stay in
range, so overflow drops never corrupt the `head`/`tail`
relationship. -/
theorem queue_empty_full_invariant (N : Nat) (ops : List FifoOp) (hN : 0 < N) :
    (contents N (run N ops) = [] ↔ (run N ops).head = (run N ops).tail) ∧
    ((contents N (run N ops)).length = N - 1 ↔
      ((run N ops).tail + 1) % N = (run N ops).head) ∧
    (contents N (run N ops)).length ≤ N - 1 ∧
    (run N ops).head < N ∧ (run N ops).tail < N := by
  obtain ⟨hb, hh, ht⟩ := inv_run hN ops
  refine ⟨contents_eq_nil_iff ⟨hb, hh, ht⟩, ?_, ?_, hh, ht⟩
  · rw [length_contents, succ_mod_eq_head_iff ⟨hb, hh, ht⟩,
      full_guard_iff ⟨hb, hh, ht⟩]
  · rw [length_contents]
    have := count_lt (f := run N ops) ⟨hb, hh, ht⟩
    omega

theorem queue_empty_full_invariant_witness :
    0 < 4 ∧
    ((contents 4 (run 4 [FifoOp.write 5, FifoOp.write 6, FifoOp.read]) = [] ↔
        (run 4 [FifoOp.write 5, FifoOp.write 6, FifoOp.read]).head =
          (run 4 [FifoOp.write 5, FifoOp.write 6, FifoOp.read]).tail) ∧
      ((contents 4 (run 4 [FifoOp.write 5, FifoOp.write 6, FifoOp.read])).length = 4 - 1 ↔
        ((run 4 [FifoOp.write 5, FifoOp.write 6, FifoOp.read]).tail + 1) % 4 =
          (run 4 [FifoOp.write 5, FifoOp.write 6, FifoOp.read]).head) ∧
      (contents 4 (run 4 [FifoOp.write 5, FifoOp.write 6, FifoOp.read])).length ≤ 4 - 1 ∧
      (run 4 [FifoOp.write 5, FifoOp.write 6, FifoOp.read]).head < 4 ∧
      (run 4 [FifoOp.write 5, FifoOp.write 6, FifoOp.read]).tail < 4) :=
  ⟨by decide, queue_empty_full_invariant 4 [FifoOp.write 5, FifoOp.write 6, FifoOp.read]
    (by decide)⟩

/-- Claim C2: calling `write_event` on a full queue (`FIFO_SIZE - 1`
live entries) leaves the entire queue state — buffer contents, `head`
and `tail` — unchanged: the extra event is silently dropped, so it is
never retrievable by any later `read_event`, and no error is surfaced
(the function returns void). -/
theorem write_event_full_noop (N : Nat) (f : Event_FIFO) (e : Nat)
    (hb : f.buffer.length = N) (hh : f.head < N) (ht : f.tail < N)
    (hfull : (contents N f).length = N - 1) :
    write_event N f e = f := by
  have hc : count N f = N - 1 := by rw [← length_contents]; exact hfull
  have hg := (full_guard_iff ⟨hb, hh, ht⟩).mpr hc
  rw [write_event_eq_host]
  simp only [write_event_host, if_pos hg]

theorem write_event_full_noop_witness :
    (([1, 2, 3, 0] : List Nat).length = 4 ∧ 3 < 4 ∧ 2 < 4 ∧
      (contents 4 { buffer := [1, 2, 3, 0], head := 3, tail := 2 }).length = 4 - 1) ∧
    write_event 4 { buffer := [1, 2, 3, 0], head := 3, tail := 2 } 9 =
      { buffer := [1, 2, 3, 0], head := 3, tail := 2 } :=
  ⟨⟨by decide, by decide, by decide, by decide⟩,
   write_event_full_noop 4 { buffer := [1, 2, 3, 0], head := 3, tail := 2 } 9
     (by decide) (by decide) (by decide) (by decide)⟩

/-- Claim C3: for every `k < FIFO_SIZE` and events `e1..ek`, enqueuing
`e1..ek` into the initially empty queue via `write_event` and then
calling `read_event` `k` times succeeds each time (returns 1) and
yields exactly `e1..ek` in that order. -/
theorem fifo_round_trip (N : Nat) (es : List Nat) (hk : es.length < N) :
    (readN N (es.foldl (write_event N) (initFifo N)) es.length).1 =
      es.map (fun e => (1, e)) := by
  have hN : 0 < N := by omega
  have hInit := inv_initFifo hN
  rw [write_event_fn_eq]
  have hcf := contents_foldl_write es (initFifo N) hInit
    (by rw [count_initFifo]; omega)
  rw [contents_initFifo, List.nil_append] at hcf
  have hInvF := inv_foldl_write es (initFifo N) hInit
  have hlen : (contents N (es.foldl (write_event_host N) (initFifo N))).length
      = es.length := by rw [hcf]
  have hd := readN_drain es.length _ hInvF hlen
  rw [hcf] at hd
  exact hd

theorem fifo_round_trip_witness :
    ([10, 20, 30] : List Nat).length < 4 ∧
    (readN 4 (([10, 20, 30] : List Nat).foldl (write_event 4) (initFifo 4))
        ([10, 20, 30] : List Nat).length).1 =
      ([10, 20, 30] : List Nat).map (fun e => (1, e)) :=
  ⟨by decide, fifo_round_trip 4 [10, 20, 30] (by decide)⟩

/-- Claim C4: the interrupt-guarded `write_event`
(`src/fsm-gen/fsm_fifo.cpp`) and the host-test `write_event`
(`src/fsm-gen/tests/overlap/code/Src/fsm_fifo.cpp`) compute the
identical transformation of the queue state (buffer, head, tail) for
every input state and event; the guarded variant additionally leaves
interrupts re-enabled.  Consequently both variants satisfy the same
queue invariants. -/
theorem write_event_variants_agree (N : Nat) (s : IrqState) (e : Nat) :
    (write_event_irq N s e).fifo = write_event_host N s.fifo e ∧
    (write_event_irq N s e).irqEnabled = true :=
  ⟨rfl, rfl⟩

/-- Claim C7: `read_event` returns 0 ("nothing available") exactly when
`head == tail` — a normal result, not an error — and otherwise returns
1 with the event stored at slot `head`, advancing `head` by one with
wraparound at `FIFO_SIZE`. -/
theorem read_event_empty_or_dequeue (N : Nat) (f : Event_FIFO) (ev : Nat)
    (hh : f.head < N) :
    ((read_event N f ev).1 = 0 ↔ f.head = f.tail) ∧
    ((read_event N f ev).1 = 1 ↔ f.head ≠ f.tail) ∧
    (f.head ≠ f.tail →
      read_event N f ev =
        (1, f.buffer.getD f.head 0, { f with head := (f.head + 1) % N })) := by
  by_cases h : f.head = f.tail
  · rw [read_empty_eq h]
    exact ⟨by simp [h], by simp [h], fun hc => absurd h hc⟩
  · rw [read_nonempty_eq h]
    refine ⟨by simp [h], by simp [h], fun _ => ?_⟩
    rw [nextIdx_eq_mod hh]

theorem read_event_empty_or_dequeue_witness :
    1 < 4 ∧
    ((read_event 4 { buffer := [1, 2, 3, 0], head := 1, tail := 3 } 9).1 = 1 ↔
      ({ buffer := [1, 2, 3, 0], head := 1, tail := 3 } : Event_FIFO).head ≠
        ({ buffer := [1, 2, 3, 0], head := 1, tail := 3 } : Event_FIFO).tail) ∧
    read_event 4 { buffer := [1, 2, 3, 0], head := 1, tail := 3 } 9 =
      (1, ([1, 2, 3, 0] : List Nat).getD 1 0,
       { buffer := [1, 2, 3, 0], head := (1 + 1) % 4, tail := 3 }) :=
  ⟨by decide,
   (read_event_empty_or_dequeue 4 { buffer := [1, 2, 3, 0], head := 1, tail := 3 } 9
     (by decide)).2.1,
   (read_event_empty_or_dequeue 4 { buffer := [1, 2, 3, 0], head := 1, tail := 3 } 9
     (by decide)).2.2 (by decide)⟩

/-- Claim C9: for every sequence of `write_event`/`read_event`
operations from the initial queue, `head` and `tail` remain within
`[0, FIFO_SIZE)`, so every `fifo.buffer` access performed by either
operation (`buffer[tail]` on a non-full write, `buffer[head]` on a
non-empty read) is in bounds. -/
theorem fifo_indices_in_bounds (N : Nat) (ops : List FifoOp) (hN : 0 < N) :
    (run N ops).buffer.length = N ∧
    (run N ops).head < (run N ops).buffer.length ∧
    (run N ops).tail < (run N ops).buffer.length := by
  obtain ⟨hb, hh, ht⟩ := inv_run hN ops
  exact ⟨hb, by omega, by omega⟩

theorem fifo_indices_in_bounds_witness :
    0 < 4 ∧
    ((run 4 [FifoOp.write 8, FifoOp.read, FifoOp.read]).buffer.length = 4 ∧
      (run 4 [FifoOp.write 8, FifoOp.read, FifoOp.read]).head <
        (run 4 [FifoOp.write 8, FifoOp.read, FifoOp.read]).buffer.length ∧
      (run 4 [FifoOp.write 8, FifoOp.read, FifoOp.read]).tail <
        (run 4 [FifoOp.write 8, FifoOp.read, FifoOp.read]).buffer.length) :=
  ⟨by decide, fifo_indices_in_bounds 4 [FifoOp.write 8, FifoOp.read, FifoOp.read]
    (by decide)⟩

/-- Claim C10: when the queue is empty (`head == tail`), both
`read_event` variants return 0 and leave the caller-supplied out
location and the queue completely unmodified — absence is signaled only
through the return value. -/
theorem read_event_empty_frame (N : Nat) (f : Event_FIFO) (ev : Nat)
    (h : f.head = f.tail) :
    read_event N f ev = (0, ev, f) ∧ read_event_host N f ev = (0, ev, f) :=
  ⟨read_empty_eq h ev, by rw [read_event_host_eq]; exact read_empty_eq h ev⟩

theorem read_event_empty_frame_witness :
    ({ buffer := [1, 2, 3, 0], head := 2, tail := 2 } : Event_FIFO).head =
      ({ buffer := [1, 2, 3, 0], head := 2, tail := 2 } : Event_FIFO).tail ∧
    (read_event 4 { buffer := [1, 2, 3, 0], head := 2, tail := 2 } 42 =
      (0, 42, { buffer := [1, 2, 3, 0], head := 2, tail := 2 }) ∧
     read_event_host 4 { buffer := [1, 2, 3, 0], head := 2, tail := 2 } 42 =
      (0, 42, { buffer := [1, 2, 3, 0], head := 2, tail := 2 })) :=
  ⟨by decide, read_event_empty_frame 4 { buffer := [1, 2, 3, 0], head := 2, tail := 2 } 42
    (by decide)⟩

/-- Claim C5: for every valid channel (`TIMER_1`, `TIMER_2`, `TIMER_3`)
and duration `ms`, `start_timer(channel, ms)` programs the hardware
resource bound to that channel: its period becomes `10 * ms` ticks, any
pending elapsed-flag is cleared, and the countdown is started; other
channels are untouched. -/
theorem start_timer_programs_channel (env : TimerEnv) (t : Timer) (ms : Int)
    (ht : t ≠ Timer.NUM_TIMERS) :
    getTim (start_timer env t ms) t =
      { period := 10 * ms, itPending := false, running := true,
        counter := (getTim env t).counter } ∧
    (∀ u : Timer, u ≠ t → u ≠ Timer.NUM_TIMERS →
      getTim (start_timer env t ms) u = getTim env u) := by
  cases t with
  | NUM_TIMERS => exact absurd rfl ht
  | TIMER_1 =>
    refine ⟨rfl, fun u hu hu2 => ?_⟩
    cases u with
    | TIMER_1 => exact absurd rfl hu
    | NUM_TIMERS => exact absurd rfl hu2
    | TIMER_2 => rfl
    | TIMER_3 => rfl
  | TIMER_2 =>
    refine ⟨rfl, fun u hu hu2 => ?_⟩
    cases u with
    | TIMER_2 => exact absurd rfl hu
    | NUM_TIMERS => exact absurd rfl hu2
    | TIMER_1 => rfl
    | TIMER_3 => rfl
  | TIMER_3 =>
    refine ⟨rfl, fun u hu hu2 => ?_⟩
    cases u with
    | TIMER_3 => exact absurd rfl hu
    | NUM_TIMERS => exact absurd rfl hu2
    | TIMER_1 => rfl
    | TIMER_2 => rfl

theorem start_timer_programs_channel_witness :
    Timer.TIMER_2 ≠ Timer.NUM_TIMERS ∧
    getTim (start_timer ⟨⟨1, true, false, 7⟩, ⟨2, true, false, 9⟩, ⟨3, true, true, 11⟩⟩
        Timer.TIMER_2 500) Timer.TIMER_2 =
      { period := 10 * 500, itPending := false, running := true,
        counter := (getTim (⟨⟨1, true, false, 7⟩, ⟨2, true, false, 9⟩,
          ⟨3, true, true, 11⟩⟩ : TimerEnv) Timer.TIMER_2).counter } ∧
    getTim (start_timer ⟨⟨1, true, false, 7⟩, ⟨2, true, false, 9⟩, ⟨3, true, true, 11⟩⟩
        Timer.TIMER_2 500) Timer.TIMER_1 =
      getTim ⟨⟨1, true, false, 7⟩, ⟨2, true, false, 9⟩, ⟨3, true, true, 11⟩⟩ Timer.TIMER_1 :=
  ⟨by decide,
   (start_timer_programs_channel ⟨⟨1, true, false, 7⟩, ⟨2, true, false, 9⟩,
     ⟨3, true, true, 11⟩⟩ Timer.TIMER_2 500 (by decide)).1,
   (start_timer_programs_channel ⟨⟨1, true, false, 7⟩, ⟨2, true, false, 9⟩,
     ⟨3, true, true, 11⟩⟩ Timer.TIMER_2 500 (by decide)).2 Timer.TIMER_1
     (by decide) (by decide)⟩

/-- Claim C8: for every valid channel, `stop_timer(channel)` halts that
channel's countdown and resets its counter to zero; stopping is
idempotent (stopping twice equals stopping once) and stopping an
already-stopped channel is a no-op, not an error. -/
theorem stop_timer_halts_idempotent (env : TimerEnv) (t : Timer)
    (ht : t ≠ Timer.NUM_TIMERS) :
    (getTim (stop_timer env t) t).running = false ∧
    (getTim (stop_timer env t) t).counter = 0 ∧
    stop_timer (stop_timer env t) t = stop_timer env t ∧
    ((getTim env t).running = false → (getTim env t).counter = 0 →
      stop_timer env t = env) := by
  obtain ⟨⟨p1, i1, r1, c1⟩, ⟨p2, i2, r2, c2⟩, ⟨p3, i3, r3, c3⟩⟩ := env
  cases t with
  | NUM_TIMERS => exact absurd rfl ht
  | TIMER_1 =>
    refine ⟨rfl, rfl, rfl, fun h1 h2 => ?_⟩
    simp only [getTim] at h1 h2
    subst h1; subst h2
    rfl
  | TIMER_2 =>
    refine ⟨rfl, rfl, rfl, fun h1 h2 => ?_⟩
    simp only [getTim] at h1 h2
    subst h1; subst h2
    rfl
  | TIMER_3 =>
    refine ⟨rfl, rfl, rfl, fun h1 h2 => ?_⟩
    simp only [getTim] at h1 h2
    subst h1; subst h2
    rfl

theorem stop_timer_halts_idempotent_witness :
    Timer.TIMER_3 ≠ Timer.NUM_TIMERS ∧
    (getTim (stop_timer ⟨⟨1, true, false, 7⟩, ⟨2, true, false, 9⟩, ⟨3, true, true, 11⟩⟩
        Timer.TIMER_3) Timer.TIMER_3).running = false ∧
    (getTim (stop_timer ⟨⟨1, true, false, 7⟩, ⟨2, true, false, 9⟩, ⟨3, true, true, 11⟩⟩
        Timer.TIMER_3) Timer.TIMER_3).counter = 0 ∧
    stop_timer (stop_timer ⟨⟨1, true, false, 7⟩, ⟨2, true, false, 9⟩, ⟨3, true, true, 11⟩⟩
        Timer.TIMER_3) Timer.TIMER_3 =
      stop_timer ⟨⟨1, true, false, 7⟩, ⟨2, true, false, 9⟩, ⟨3, true, true, 11⟩⟩
        Timer.TIMER_3 :=
  ⟨by decide,
   (stop_timer_halts_idempotent ⟨⟨1, true, false, 7⟩, ⟨2, true, false, 9⟩,
     ⟨3, true, true, 11⟩⟩ Timer.TIMER_3 (by decide)).1,
   (stop_timer_halts_idempotent ⟨⟨1, true, false, 7⟩, ⟨2, true, false, 9⟩,
     ⟨3, true, true, 11⟩⟩ Timer.TIMER_3 (by decide)).2.1,
   (stop_timer_halts_idempotent ⟨⟨1, true, false, 7⟩, ⟨2, true, false, 9⟩,
     ⟨3, true, true, 11⟩⟩ Timer.TIMER_3 (by decide)).2.2.1⟩

/-- Claim C6: in `FSM2` (initial state `FSM2_S03`), dispatching
`TIMER_2_EVENT` to an active S03 stops `TIMER_2`, transitions to
`FSM2_S04`, whose entry action starts `TIMER_2` for 500 ms; dispatching
`TIMER_2_EVENT` to S04 symmetrically transitions back to S03 and starts
`TIMER_2` for 500 ms; and after any number `n + 1` of elapse events the
machine is in the alternating configuration (`S04` after an odd number
of events, `S03` after an even number, always with `TIMER_2` programmed
to 500 ms (5000 ticks), cleared, running, counter 0, and the other
channels untouched). -/
theorem fsm2_oscillator :
    (∀ m : FSM2Machine, m.active = FSM2State.S03 →
      FSM2_react m FSMEventTy.TIMER_2_EVENT =
        { active := FSM2State.S04,
          timers := start_timer (stop_timer m.timers Timer.TIMER_2)
            Timer.TIMER_2 500 }) ∧
    (∀ m : FSM2Machine, m.active = FSM2State.S04 →
      FSM2_react m FSMEventTy.TIMER_2_EVENT =
        { active := FSM2State.S03,
          timers := start_timer (stop_timer m.timers Timer.TIMER_2)
            Timer.TIMER_2 500 }) ∧
    (∀ (env : TimerEnv) (n : Nat),
      fsm2Step^[n + 1] (FSM2_start env) =
        { active := if n % 2 = 0 then FSM2State.S04 else FSM2State.S03,
          timers := { htim1 := env.htim1,
                      htim2 := { period := 5000, itPending := false,
                                 running := true, counter := 0 },
                      htim3 := env.htim3 } }) := by
  refine ⟨?_, ?_, ?_⟩
  · intro m h
    obtain ⟨a, tenv⟩ := m
    dsimp only at h
    subst h
    rfl
  · intro m h
    obtain ⟨a, tenv⟩ := m
    dsimp only at h
    subst h
    rfl
  · intro env n
    induction n with
    | zero =>
      simp [fsm2Step, FSM2_start, FSM2_react, fsm2_transit, FSM2_entry,
        stop_timer, start_timer, stop_hal_timer, start_hal_timer,
        HAL_TIM_Base_Init, HAL_TIM_CLEAR_IT, HAL_TIM_Base_Start_IT,
        HAL_TIM_Base_Stop_IT, HAL_TIM_SET_COUNTER]
    | succ k ih =>
      rw [Function.iterate_succ_apply', ih]
      by_cases h : k % 2 = 0
      · have h2 : (k + 1) % 2 = 1 := by omega
        simp [h, h2, fsm2Step, FSM2_react, fsm2_transit, FSM2_entry,
          stop_timer, start_timer, stop_hal_timer, start_hal_timer,
          HAL_TIM_Base_Init, HAL_TIM_CLEAR_IT, HAL_TIM_Base_Start_IT,
          HAL_TIM_Base_Stop_IT, HAL_TIM_SET_COUNTER]
      · have h1 : k % 2 = 1 := by omega
        have h2 : (k + 1) % 2 = 0 := by omega
        simp [h1, h2, fsm2Step, FSM2_react, fsm2_transit, FSM2_entry,
          stop_timer, start_timer, stop_hal_timer, start_hal_timer,
          HAL_TIM_Base_Init, HAL_TIM_CLEAR_IT, HAL_TIM_Base_Start_IT,
          HAL_TIM_Base_Stop_IT, HAL_TIM_SET_COUNTER]

theorem fsm2_oscillator_witness :
    FSM2_react
      { active := FSM2State.S03,
        timers := ⟨⟨1, true, false, 7⟩, ⟨2, true, false, 9⟩, ⟨3, true, true, 11⟩⟩ }
      FSMEventTy.TIMER_2_EVENT =
      { active := FSM2State.S04,
        timers := start_timer (stop_timer
          ⟨⟨1, true, false, 7⟩, ⟨2, true, false, 9⟩, ⟨3, true, true, 11⟩⟩
          Timer.TIMER_2) Timer.TIMER_2 500 } ∧
    FSM2_react
      { active := FSM2State.S04,
        timers := ⟨⟨1, true, false, 7⟩, ⟨2, true, false, 9⟩, ⟨3, true, true, 11⟩⟩ }
      FSMEventTy.TIMER_2_EVENT =
      { active := FSM2State.S03,
        timers := start_timer (stop_timer
          ⟨⟨1, true, false, 7⟩, ⟨2, true, false, 9⟩, ⟨3, true, true, 11⟩⟩
          Timer.TIMER_2) Timer.TIMER_2 500 } ∧
    fsm2Step^[2 + 1] (FSM2_start
        ⟨⟨1, true, false, 7⟩, ⟨2, true, false, 9⟩, ⟨3, true, true, 11⟩⟩) =
      { active := if 2 % 2 = 0 then FSM2State.S04 else FSM2State.S03,
        timers := { htim1 := ⟨1, true, false, 7⟩,
                    htim2 := { period := 5000, itPending := false,
                               running := true, counter := 0 },
                    htim3 := ⟨3, true, true, 11⟩ } } :=
  ⟨fsm2_oscillator.1 _ rfl, fsm2_oscillator.2.1 _ rfl,
   fsm2_oscillator.2.2 ⟨⟨1, true, false, 7⟩, ⟨2, true, false, 9⟩,
     ⟨3, true, true, 11⟩⟩ 2⟩

end FsmTools
